import Mathlib

/-!
Verification of the flipperbridge framing codec, stream packetizer, serial
handshake drain loop and radio scanner, as a shallow embedding of the Rust
sources (`src/codec.rs`, `src/transport/mod.rs`, `src/transport/serial.rs`,
`src/transport/ble.rs`, `src/consts.rs`, `src/error.rs`).

Bytes are modelled as `Nat` (all byte values produced by the code are < 256;
for a `u8` value `b`, `b & 0x7F` is `b % 128` and `b & 0x80 == 0` is
`b % 256 < 128`, which agree for arbitrary `Nat` with the bit tests).
`u64` arithmetic is modelled with explicit `% 2 ^ 64` where overflow can occur.
-/

namespace Flipperbridge

/-- Constant `MAX_FRAME_LENGTH` from `src/consts.rs`. -/
def MAX_FRAME_LENGTH : Nat := 1536

/-- Constant `PROMPT_PATTERN` from `src/consts.rs`: `[0x0a, 0x3e, 0x3a, 0x20]`, i.e. `"\n>: "`. -/
def PROMPT_PATTERN : List Nat := [0x0a, 0x3e, 0x3a, 0x20]

/-- LEB128 varint encoding of a `u64`, as in the `integer_encoding` crate's
`encode_var`: while `n >= 0x80` emit `MSB | (n as u8)` and shift right by 7,
then emit the final byte `n`. -/
def encodeVar (n : Nat) : List Nat :=
  if n < 128 then [n]
  else (128 ||| n % 256) :: encodeVar (n >>> 7)
termination_by n
decreasing_by
  simp only [Nat.shiftRight_eq_div_pow]
  exact Nat.div_lt_self (by omega) (by norm_num)

/-- Loop body of the `integer_encoding` crate's `u64::decode_var`:
accumulate 7-bit groups into `result` (a `u64`, hence the `% 2 ^ 64`),
stop successfully on a byte with clear MSB, fail once the shift passes
`9 * 7 = 63` while the MSB is still set, fail if the input runs out. -/
def decodeVarAux : List Nat → Nat → Nat → Option (Nat × Nat)
  | [], _, _ => none
  | b :: rest, result, shift =>
    let result' := (result ||| (b % 128) <<< shift) % 2 ^ 64
    let shift' := shift + 7
    if b % 256 < 128 then some (result', shift' / 7)
    else if shift' > 63 then none
    else decodeVarAux rest result' shift'

/-- Function `u64::decode_var(src)` from the `integer_encoding` crate: returns the
decoded value and the number of bytes consumed, or `none` when no complete
varint is present at the head of `src`. -/
def decodeVar (src : List Nat) : Option (Nat × Nat) :=
  decodeVarAux src 0 0

/-- The `std::io::ErrorKind` values used by `src/codec.rs`. -/
inductive IoErrorKind
  | invalidData
deriving DecidableEq, Repr

/-- A `std::io::Error` as constructed in `src/codec.rs`: a kind and a message. -/
structure IoError where
  kind : IoErrorKind
  msg : String
deriving DecidableEq, Repr

/-- The error value `Error::new(ErrorKind::InvalidData, "Data too big!")`
built on both failure paths in `src/codec.rs`. -/
def dataTooBigError : IoError := ⟨.invalidData, "Data too big!"⟩

/-- Enum `FlipperError` from `src/error.rs`. -/
inductive FlipperError
  | BTAdapterError (s : String)
  | BTFailure (s : String)
  | BTNoCharacteristics
  | IOFailure (s : String)
  | DataTooLarge (n : Nat)
  | OutOfBounds
  | Unknown
deriving DecidableEq, Repr

/-- Struct `FlipperCodec` from `src/codec.rs`: the internal accumulation buffer. -/
structure FlipperCodec where
  buf : List Nat
deriving DecidableEq, Repr

/-- Constructor `FlipperCodec::default()`. -/
def FlipperCodec.default : FlipperCodec := ⟨[]⟩

/-- Method `FlipperCodec::decode` from `src/codec.rs`: append the whole input chunk
to the internal buffer, try to parse a varint length at the buffer head,
reject lengths above `MAX_FRAME_LENGTH` with an `InvalidData` error, and if
the full header + body span has arrived drain it (first the `consumed` header
bytes, then `len` body bytes) and return the body. Returns the decoder result
together with the updated codec state. -/
def FlipperCodec.decode (c : FlipperCodec) (chunk : List Nat) :
    Except IoError (Option (List Nat)) × FlipperCodec :=
  let buf := c.buf ++ chunk
  match decodeVar buf with
  | some (len, consumed) =>
    if len > MAX_FRAME_LENGTH then
      (.error dataTooBigError, ⟨buf⟩)
    else if buf.length ≥ len + consumed then
      (.ok (some ((buf.drop consumed).take len)), ⟨(buf.drop consumed).drop len⟩)
    else
      (.ok none, ⟨buf⟩)
  | none => (.ok none, ⟨buf⟩)

/-- Method `FlipperCodec::encode` from `src/codec.rs`: reject bodies longer than
`MAX_FRAME_LENGTH` with an `InvalidData` error, otherwise append
`varint(len) || data` to the output buffer `buf`. (The varint is written
through an 8-byte scratch header of which the first `header_len` bytes are
kept, which equals `encodeVar data.length` for every accepted length.) -/
def FlipperCodec.encode (data : List Nat) (buf : List Nat) :
    Except IoError (List Nat) :=
  if data.length > MAX_FRAME_LENGTH then .error dataTooBigError
  else .ok (buf ++ encodeVar data.length ++ data)

/-- Struct `StreamPacketizer` from `src/transport/mod.rs`. -/
structure StreamPacketizer where
  buf : List Nat
deriving DecidableEq, Repr

/-- Constructor `StreamPacketizer::new`. -/
def StreamPacketizer.new : StreamPacketizer := ⟨[]⟩

/-- Method `StreamPacketizer::fill_buffer`: extend the internal buffer. -/
def StreamPacketizer.fill_buffer (p : StreamPacketizer) (data : List Nat) :
    StreamPacketizer :=
  ⟨p.buf ++ data⟩

/-- Method `StreamPacketizer::poll` from `src/transport/mod.rs`: same frame
extraction as `FlipperCodec::decode` but without an input chunk, and the
oversize failure is `FlipperError::DataTooLarge(len)`. -/
def StreamPacketizer.poll (p : StreamPacketizer) :
    Except FlipperError (Option (List Nat)) × StreamPacketizer :=
  match decodeVar p.buf with
  | some (len, consumed) =>
    if len > MAX_FRAME_LENGTH then
      (.error (.DataTooLarge len), p)
    else if p.buf.length ≥ len + consumed then
      (.ok (some ((p.buf.drop consumed).take len)), ⟨(p.buf.drop consumed).drop len⟩)
    else
      (.ok none, p)
  | none => (.ok none, p)

/-- Function `build_frame` from `src/transport/mod.rs`: reject bodies longer than
`MAX_FRAME_LENGTH` with `DataTooLarge(len)`, otherwise return
`varint(len) || data`. -/
def build_frame (data : List Nat) : Except FlipperError (List Nat) :=
  if data.length > MAX_FRAME_LENGTH then .error (.DataTooLarge data.length)
  else .ok (encodeVar data.length ++ data)

/-- Repeated `FlipperCodec::decode` calls: feed the chunks in order, recording
each call's result together with the codec state it leaves behind. -/
def FlipperCodec.runChunks : FlipperCodec → List (List Nat) →
    List (Except IoError (Option (List Nat)) × FlipperCodec)
  | _, [] => []
  | c, ch :: rest =>
    let st := c.decode ch
    st :: st.2.runChunks rest

/-- The encoded frame for a body: varint length header followed by the body.
This is exactly the success value of `build_frame` / `FlipperCodec::encode`. -/
def frameBytes (body : List Nat) : List Nat :=
  encodeVar body.length ++ body

section VarintLemmas

set_option maxRecDepth 10000 in
private lemma lor_msb_facts :
    ∀ x < 256, ¬((128 ||| x) % 256 < 128) ∧ (128 ||| x) % 128 = x % 128 := by
  decide

set_option maxRecDepth 100000 in
private lemma lor_mul_128 : ∀ a < 128, ∀ b < 128, a ||| b * 128 = a + 128 * b := by
  decide

lemma encodeVar_small {n : Nat} (h : n < 128) : encodeVar n = [n] := by
  rw [encodeVar, if_pos h]

lemma encodeVar_two {n : Nat} (h1 : 128 ≤ n) (h2 : n < 16384) :
    encodeVar n = [128 ||| n % 256, n >>> 7] := by
  rw [encodeVar, if_neg (by omega)]
  have hd : n >>> 7 = n / 128 := Nat.shiftRight_eq_div_pow n 7
  have : n >>> 7 < 128 := by rw [hd]; omega
  rw [encodeVar_small this]

lemma encodeVar_ne_nil (n : Nat) : encodeVar n ≠ [] := by
  rw [encodeVar]
  split <;> simp

lemma decodeVar_encodeVar {n : Nat} (h : n < 16384) (rest : List Nat) :
    decodeVar (encodeVar n ++ rest) = some (n, (encodeVar n).length) := by
  by_cases hs : n < 128
  · rw [encodeVar_small hs]
    simp only [List.cons_append, List.nil_append, List.length_cons, List.length_nil]
    show decodeVarAux (n :: rest) 0 0 = some (n, 1)
    rw [decodeVarAux]
    simp only [Nat.mod_eq_of_lt (show n < 256 by omega)]
    rw [if_pos hs]
    simp only [Nat.zero_or, Nat.shiftLeft_zero]
    rw [Nat.mod_eq_of_lt (show n % 128 < 2 ^ 64 by omega),
      Nat.mod_eq_of_lt (show n < 128 by omega)]
  · rw [encodeVar_two (by omega) h]
    simp only [List.cons_append, List.nil_append, List.length_cons, List.length_nil]
    show decodeVarAux ((128 ||| n % 256) :: (n >>> 7) :: rest) 0 0 = some (n, 2)
    obtain ⟨hmsb, hmod⟩ := lor_msb_facts (n % 256) (Nat.mod_lt _ (by omega))
    rw [decodeVarAux]
    rw [if_neg hmsb, if_neg (by omega)]
    have hr1 : (0 ||| ((128 ||| n % 256) % 128) <<< 0) % 2 ^ 64 = n % 128 := by
      rw [Nat.zero_or, Nat.shiftLeft_zero, hmod,
        Nat.mod_mod_of_dvd n (show (128:ℕ) ∣ 256 by norm_num)]
      exact Nat.mod_eq_of_lt (by omega)
    rw [hr1, decodeVarAux]
    have hd : n >>> 7 = n / 128 := Nat.shiftRight_eq_div_pow n 7
    have hd128 : n >>> 7 < 128 := by rw [hd]; omega
    rw [if_pos (by rw [Nat.mod_eq_of_lt (by omega)]; exact hd128)]
    simp only [Nat.zero_add]
    have : n % 128 ||| (n >>> 7 % 128) <<< 7 = n := by
      rw [Nat.mod_eq_of_lt hd128, Nat.shiftLeft_eq, hd]
      rw [show (2:ℕ) ^ 7 = 128 by norm_num]
      rw [lor_mul_128 (n % 128) (by omega) (n / 128) (by omega)]
      omega
    rw [this, Nat.mod_eq_of_lt (by omega)]

lemma decodeVar_single_msb {b : Nat} (h : ¬ b % 256 < 128) : decodeVar [b] = none := by
  show decodeVarAux [b] 0 0 = none
  rw [decodeVarAux, if_neg h, if_neg (by omega)]
  rfl

lemma decodeVarAux_append {src extra : List Nat} {r s : Nat} {x : Nat × Nat}
    (h : decodeVarAux src r s = some x) :
    decodeVarAux (src ++ extra) r s = some x := by
  induction src generalizing r s with
  | nil => simp [decodeVarAux] at h
  | cons b rest ih =>
    rw [decodeVarAux] at h
    rw [List.cons_append, decodeVarAux]
    by_cases h1 : b % 256 < 128
    · rw [if_pos h1] at h ⊢; exact h
    · rw [if_neg h1] at h ⊢
      by_cases h2 : s + 7 > 63
      · rw [if_pos h2] at h; exact absurd h (by simp)
      · rw [if_neg h2] at h ⊢; exact ih h

lemma decodeVar_append {buf extra : List Nat} {x : Nat × Nat}
    (h : decodeVar buf = some x) : decodeVar (buf ++ extra) = some x :=
  decodeVarAux_append h

end VarintLemmas

section FrameLemmas

lemma decodeVar_frameBytes {body : List Nat} (hb : body.length ≤ 1536)
    (rest : List Nat) :
    decodeVar (frameBytes body ++ rest) =
      some (body.length, (encodeVar body.length).length) := by
  rw [frameBytes, List.append_assoc]
  exact decodeVar_encodeVar (by omega) (body ++ rest)

/-- A complete frame (possibly followed by more bytes) at the head of the
accumulated buffer is drained and its body returned. -/
lemma decode_frame {c : FlipperCodec} {chunk body rest : List Nat}
    (hb : body.length ≤ 1536) (h : c.buf ++ chunk = frameBytes body ++ rest) :
    c.decode chunk = (.ok (some body), ⟨rest⟩) := by
  have hlen : (encodeVar body.length).length + (body.length + rest.length) =
      (frameBytes body ++ rest).length := by
    simp only [frameBytes, List.length_append]
    omega
  simp only [FlipperCodec.decode, h, decodeVar_frameBytes hb rest]
  rw [if_neg (by simp [MAX_FRAME_LENGTH]; omega)]
  rw [if_pos (by omega)]
  have h1 : (frameBytes body ++ rest).drop (encodeVar body.length).length =
      body ++ rest := by
    rw [frameBytes, List.append_assoc, List.drop_left]
  have h2 : (body ++ rest).take body.length = body := List.take_left body rest
  have h3 : (body ++ rest).drop body.length = rest := List.drop_left body rest
  rw [h1, h2, h3]

/-- A strict prefix of a frame in the buffer: the decoder reports "no frame
yet" and retains the buffer. -/
lemma decode_incomplete {c : FlipperCodec} {chunk body p : List Nat}
    (hb : body.length ≤ 1536) (hp : p <+: frameBytes body)
    (hne : p ≠ frameBytes body) (h : c.buf ++ chunk = p) :
    c.decode chunk = (.ok none, ⟨p⟩) := by
  have henc : encodeVar body.length <+: frameBytes body := ⟨body, rfl⟩
  by_cases hlen : (encodeVar body.length).length ≤ p.length
  · -- the varint header is complete, the body is not
    obtain ⟨q, hq⟩ := List.prefix_of_prefix_length_le henc hp hlen
    obtain ⟨t, ht⟩ := hp
    have hqb : q <+: body := by
      refine ⟨t, ?_⟩
      have : encodeVar body.length ++ (q ++ t) = encodeVar body.length ++ body := by
        rw [← List.append_assoc, hq, ht, frameBytes]
      exact List.append_cancel_left this
    have hqlt : q.length < body.length := by
      rcases Nat.lt_or_ge q.length body.length with h' | h'
      · exact h'
      · exfalso
        have : q = body := hqb.eq_of_length_le h'
        exact hne (by rw [← hq, this]; rfl)
    have hbuf : c.buf ++ chunk = encodeVar body.length ++ q := by rw [h, ← hq]
    simp only [FlipperCodec.decode, hbuf,
      decodeVar_encodeVar (show body.length < 16384 by omega) q]
    rw [if_neg (by simp [MAX_FRAME_LENGTH]; omega)]
    rw [if_neg (by simp; omega), hq]
  · -- the varint header itself is incomplete
    have hpe : p <+: encodeVar body.length :=
      List.prefix_of_prefix_length_le hp henc (by omega)
    have hnone : decodeVar p = none := by
      by_cases hs : body.length < 128
      · have hp0 : p = [] := by
          rw [encodeVar_small hs] at hlen
          simp only [List.length_cons, List.length_nil] at hlen
          exact List.eq_nil_of_length_eq_zero (by omega)
        rw [hp0]; rfl
      · have henc2 := encodeVar_two (show 128 ≤ body.length by omega)
          (show body.length < 16384 by omega)
        rw [henc2] at hpe hlen
        simp only [List.length_cons, List.length_nil] at hlen
        match p, hpe with
        | [], _ => rfl
        | a :: aTail, hpe =>
          have ha : a = 128 ||| body.length % 256 := by
            obtain ⟨t, ht⟩ := hpe
            rw [List.cons_append] at ht
            injection ht
          have hTail : aTail = [] := by
            rcases aTail with _ | ⟨a', p'⟩
            · rfl
            · exfalso
              simp only [List.length_cons] at hlen
              omega
          rw [ha, hTail]
          exact decodeVar_single_msb
            (lor_msb_facts (body.length % 256) (Nat.mod_lt _ (by omega))).1
    simp only [FlipperCodec.decode, h, hnone]

/-- The `StreamPacketizer::poll` analogue of `decode_frame`. -/
lemma poll_frame {body rest : List Nat} (hb : body.length ≤ 1536) :
    StreamPacketizer.poll ⟨frameBytes body ++ rest⟩ = (.ok (some body), ⟨rest⟩) := by
  have hlen : (encodeVar body.length).length + (body.length + rest.length) =
      (frameBytes body ++ rest).length := by
    simp only [frameBytes, List.length_append]
    omega
  simp only [StreamPacketizer.poll, decodeVar_frameBytes hb rest]
  rw [if_neg (by simp [MAX_FRAME_LENGTH]; omega)]
  rw [if_pos (by omega)]
  have h1 : (frameBytes body ++ rest).drop (encodeVar body.length).length =
      body ++ rest := by
    rw [frameBytes, List.append_assoc, List.drop_left]
  have h2 : (body ++ rest).take body.length = body := List.take_left body rest
  have h3 : (body ++ rest).drop body.length = rest := List.drop_left body rest
  rw [h1, h2, h3]

end FrameLemmas

/-- C1: for every body with `len(body) ≤ 1536`, encoding (`build_frame` and
`FlipperCodec::encode`, both producing `varint(len) || body`) and feeding the
encoded bytes as a single chunk to a fresh decoder (`FlipperCodec::decode`,
and `StreamPacketizer::fill_buffer` followed by `poll`) yields exactly the
body, leaving an empty buffer behind. -/
theorem C1_roundtrip_single_chunk (body : List Nat) (h : body.length ≤ 1536) :
    build_frame body = .ok (frameBytes body) ∧
    FlipperCodec.encode body [] = .ok (frameBytes body) ∧
    FlipperCodec.decode ⟨[]⟩ (frameBytes body) = (.ok (some body), ⟨[]⟩) ∧
    (StreamPacketizer.new.fill_buffer (frameBytes body)).poll =
      (.ok (some body), ⟨[]⟩) := by
  refine ⟨?_, ?_, ?_, ?_⟩
  · rw [build_frame, if_neg (by simp [MAX_FRAME_LENGTH]; omega)]
    rfl
  · rw [FlipperCodec.encode, if_neg (by simp [MAX_FRAME_LENGTH]; omega)]
    rfl
  · exact decode_frame h (by simp)
  · show StreamPacketizer.poll ⟨[] ++ frameBytes body⟩ = _
    rw [List.nil_append]
    have hp := @poll_frame body [] h
    rwa [List.append_nil] at hp

theorem C1_roundtrip_witness :
    build_frame [1, 2, 3, 4, 5] = .ok (frameBytes [1, 2, 3, 4, 5]) ∧
    FlipperCodec.encode [1, 2, 3, 4, 5] [] = .ok (frameBytes [1, 2, 3, 4, 5]) ∧
    FlipperCodec.decode ⟨[]⟩ (frameBytes [1, 2, 3, 4, 5]) =
      (.ok (some [1, 2, 3, 4, 5]), ⟨[]⟩) ∧
    (StreamPacketizer.new.fill_buffer (frameBytes [1, 2, 3, 4, 5])).poll =
      (.ok (some [1, 2, 3, 4, 5]), ⟨[]⟩) :=
  C1_roundtrip_single_chunk [1, 2, 3, 4, 5] (by decide)

section TooLarge

/-- Behaviour of `StreamPacketizer::poll` on a buffer whose varint head exceeds the limit:
`DataTooLarge(len)`, state untouched. -/
lemma poll_too_large {buf : List Nat} {len consumed : Nat}
    (hd : decodeVar buf = some (len, consumed)) (hlen : len > MAX_FRAME_LENGTH) :
    StreamPacketizer.poll ⟨buf⟩ = (.error (.DataTooLarge len), ⟨buf⟩) := by
  simp only [StreamPacketizer.poll, hd]
  rw [if_pos hlen]

/-- Behaviour of `FlipperCodec::decode` on a chunk completing a varint head that exceeds
the limit: fixed `InvalidData` error, buffer keeps everything appended. -/
lemma decode_too_large {c : FlipperCodec} {chunk : List Nat} {len consumed : Nat}
    (hd : decodeVar (c.buf ++ chunk) = some (len, consumed))
    (hlen : len > MAX_FRAME_LENGTH) :
    c.decode chunk = (.error dataTooBigError, ⟨c.buf ++ chunk⟩) := by
  simp only [FlipperCodec.decode, hd]
  rw [if_pos hlen]

/-- Once the buffer head is a too-large varint, every later `decode` call
fails the same way, whatever chunks it is fed. -/
lemma runChunks_too_large {len consumed : Nat} :
    ∀ (cs : List (List Nat)) (c : FlipperCodec),
      decodeVar c.buf = some (len, consumed) → len > MAX_FRAME_LENGTH →
      ∀ r ∈ c.runChunks cs, r.1 = .error dataTooBigError := by
  intro cs
  induction cs with
  | nil =>
    intro c _ _ r hr
    simp [FlipperCodec.runChunks] at hr
  | cons ch rest ih =>
    intro c hd hlen r hr
    have hd2 : decodeVar (c.buf ++ ch) = some (len, consumed) := decodeVar_append hd
    have hstep : c.decode ch = (.error dataTooBigError, ⟨c.buf ++ ch⟩) :=
      decode_too_large hd2 hlen
    rw [FlipperCodec.runChunks] at hr
    simp only [hstep, List.mem_cons] at hr
    rcases hr with hr | hr
    · rw [hr]
    · exact ih ⟨c.buf ++ ch⟩ hd2 hlen r hr

end TooLarge

/-- C2 counterexample: `FlipperCodec::decode` fed a complete varint prefix
whose value exceeds 1536 fails, but with the fixed
`InvalidData("Data too big!")` error, which does NOT carry the attempted
length: the errors for attempted lengths 65534 and 65535 are identical.
(Only `StreamPacketizer::poll` and `build_frame` carry the length.) -/
theorem C2_decode_error_no_length_cex :
    decodeVar [0xFE, 0xFF, 0x03, 0x00] = some (65534, 3) ∧
    decodeVar [0xFF, 0xFF, 0x03, 0x00] = some (65535, 3) ∧
    FlipperCodec.decode ⟨[]⟩ [0xFE, 0xFF, 0x03, 0x00] =
      (.error ⟨.invalidData, "Data too big!"⟩, ⟨[0xFE, 0xFF, 0x03, 0x00]⟩) ∧
    (FlipperCodec.decode ⟨[]⟩ [0xFE, 0xFF, 0x03, 0x00]).1 =
      (FlipperCodec.decode ⟨[]⟩ [0xFF, 0xFF, 0x03, 0x00]).1 :=
  ⟨rfl, rfl, rfl, rfl⟩

/-- C2 (amended): oversized bodies are rejected by `build_frame` (with
`DataTooLarge(len)`) and by `FlipperCodec::encode` (with `InvalidData`);
a buffer head parsing as a varint above 1536 makes `StreamPacketizer::poll`
fail with `DataTooLarge` carrying the attempted length and makes
`FlipperCodec::decode` fail with the fixed `InvalidData` error; nothing is
silently truncated. -/
theorem C2_oversize_rejected :
    (∀ data : List Nat, data.length > 1536 →
       build_frame data = .error (.DataTooLarge data.length) ∧
       FlipperCodec.encode data [] = .error dataTooBigError) ∧
    (∀ (buf : List Nat) (len consumed : Nat),
       decodeVar buf = some (len, consumed) → len > 1536 →
       StreamPacketizer.poll ⟨buf⟩ = (.error (.DataTooLarge len), ⟨buf⟩) ∧
       FlipperCodec.decode ⟨[]⟩ buf = (.error dataTooBigError, ⟨buf⟩)) := by
  constructor
  · intro data hlen
    constructor
    · rw [build_frame, MAX_FRAME_LENGTH, if_pos hlen]
    · rw [FlipperCodec.encode, MAX_FRAME_LENGTH, if_pos hlen]
  · intro buf len consumed hd hlen
    refine ⟨poll_too_large hd hlen, ?_⟩
    have : decodeVar ((⟨[]⟩ : FlipperCodec).buf ++ buf) = some (len, consumed) := by
      rw [show (⟨[]⟩ : FlipperCodec).buf ++ buf = buf from List.nil_append buf]
      exact hd
    have h := decode_too_large this hlen
    rwa [show (⟨[]⟩ : FlipperCodec).buf ++ buf = buf from List.nil_append buf] at h

theorem C2_oversize_witness :
    build_frame (List.replicate 65534 0) = .error (.DataTooLarge 65534) ∧
    FlipperCodec.encode (List.replicate 65534 0) [] = .error dataTooBigError ∧
    StreamPacketizer.poll ⟨[0xFE, 0xFF, 0x03, 0x00]⟩ =
      (.error (.DataTooLarge 65534), ⟨[0xFE, 0xFF, 0x03, 0x00]⟩) ∧
    FlipperCodec.decode ⟨[]⟩ [0xFE, 0xFF, 0x03, 0x00] =
      (.error dataTooBigError, ⟨[0xFE, 0xFF, 0x03, 0x00]⟩) := by
  have h1 := C2_oversize_rejected.1 (List.replicate 65534 0)
    (by rw [List.length_replicate]; norm_num)
  have h2 := C2_oversize_rejected.2 [0xFE, 0xFF, 0x03, 0x00] 65534 3 rfl (by norm_num)
  refine ⟨?_, h1.2, h2.1, h2.2⟩
  have := h1.1
  rwa [List.length_replicate] at this

/-- C7: the encoded length prefix always matches the body length — for every
encodable body the varint head of the frame decodes to exactly `len(body)`
and is followed by exactly the body — and no frame longer than 1536 is ever
produced by the encoders or returned by `decode`/`poll`. -/
theorem C7_length_header_invariant :
    (∀ body : List Nat, body.length ≤ 1536 →
       build_frame body = .ok (frameBytes body) ∧
       decodeVar (frameBytes body) = some (body.length, (encodeVar body.length).length) ∧
       (frameBytes body).drop (encodeVar body.length).length = body) ∧
    (∀ body : List Nat, body.length > 1536 →
       build_frame body = .error (.DataTooLarge body.length) ∧
       FlipperCodec.encode body [] = .error dataTooBigError) ∧
    (∀ (c : FlipperCodec) (chunk f : List Nat) (c' : FlipperCodec),
       c.decode chunk = (.ok (some f), c') → f.length ≤ 1536) ∧
    (∀ (p : StreamPacketizer) (f : List Nat) (p' : StreamPacketizer),
       p.poll = (.ok (some f), p') → f.length ≤ 1536) := by
  refine ⟨?_, ?_, ?_, ?_⟩
  · intro body hb
    refine ⟨?_, ?_, ?_⟩
    · rw [build_frame, MAX_FRAME_LENGTH, if_neg (by omega)]
      rfl
    · have h := decodeVar_frameBytes hb []
      rwa [List.append_nil] at h
    · rw [frameBytes, List.drop_left]
  · intro body hb
    exact ⟨by rw [build_frame, MAX_FRAME_LENGTH, if_pos hb],
      by rw [FlipperCodec.encode, MAX_FRAME_LENGTH, if_pos hb]⟩
  · intro c chunk f c' h
    rcases hdv : decodeVar (c.buf ++ chunk) with _ | ⟨len, consumed⟩
    · simp only [FlipperCodec.decode, hdv] at h
      simp at h
    · simp only [FlipperCodec.decode, hdv] at h
      by_cases hgt : len > MAX_FRAME_LENGTH
      · rw [if_pos hgt] at h
        simp at h
      · rw [if_neg hgt] at h
        by_cases hge : (c.buf ++ chunk).length ≥ len + consumed
        · rw [if_pos hge] at h
          simp only [Prod.mk.injEq, Except.ok.injEq, Option.some.injEq] at h
          have hf : f = (((c.buf ++ chunk).drop consumed).take len) := h.1.symm
          have : f.length ≤ len := by rw [hf, List.length_take]; omega
          simp only [MAX_FRAME_LENGTH, gt_iff_lt, Nat.not_lt] at hgt
          omega
        · rw [if_neg hge] at h
          simp at h
  · intro p f p' h
    rcases hdv : decodeVar p.buf with _ | ⟨len, consumed⟩
    · simp only [StreamPacketizer.poll, hdv] at h
      simp at h
    · simp only [StreamPacketizer.poll, hdv] at h
      by_cases hgt : len > MAX_FRAME_LENGTH
      · rw [if_pos hgt] at h
        simp at h
      · rw [if_neg hgt] at h
        by_cases hge : p.buf.length ≥ len + consumed
        · rw [if_pos hge] at h
          simp only [Prod.mk.injEq, Except.ok.injEq, Option.some.injEq] at h
          have hf : f = ((p.buf.drop consumed).take len) := h.1.symm
          have : f.length ≤ len := by rw [hf, List.length_take]; omega
          simp only [MAX_FRAME_LENGTH, gt_iff_lt, Nat.not_lt] at hgt
          omega
        · rw [if_neg hge] at h
          simp at h

theorem C7_length_header_witness :
    build_frame [9, 8, 7] = .ok (frameBytes [9, 8, 7]) ∧
    decodeVar (frameBytes [9, 8, 7]) =
      some (([9, 8, 7] : List Nat).length, (encodeVar ([9, 8, 7] : List Nat).length).length) ∧
    (frameBytes [9, 8, 7]).drop (encodeVar ([9, 8, 7] : List Nat).length).length = [9, 8, 7] ∧
    ([1, 2] : List Nat).length ≤ 1536 :=
  have h1 := C7_length_header_invariant.1 [9, 8, 7] (by decide)
  have h2 := C7_length_header_invariant.2.2.1 ⟨[]⟩ [0x02, 1, 2] [1, 2] ⟨[]⟩ rfl
  ⟨h1.1, h1.2.1, h1.2.2, h2⟩


/-- C8: a failing `poll` drains nothing — the packetizer state is returned
unchanged, so the next `poll` fails with the same `DataTooLarge` and the
same attempted length — and a failing `decode` drains nothing either (the
state is the old buffer plus the appended chunk), so every later `decode`
call on that instance, whatever chunks it is fed, fails with the same
`InvalidData` error. -/
theorem C8_error_preserves_state :
    (∀ (p : StreamPacketizer) (len consumed : Nat),
       decodeVar p.buf = some (len, consumed) → len > MAX_FRAME_LENGTH →
       p.poll = (.error (.DataTooLarge len), p)) ∧
    (∀ (c : FlipperCodec) (len consumed : Nat) (chunk : List Nat),
       decodeVar (c.buf ++ chunk) = some (len, consumed) → len > MAX_FRAME_LENGTH →
       c.decode chunk = (.error dataTooBigError, ⟨c.buf ++ chunk⟩) ∧
       ∀ cs, ∀ r ∈ (⟨c.buf ++ chunk⟩ : FlipperCodec).runChunks cs,
         r.1 = .error dataTooBigError) := by
  constructor
  · intro p len consumed hd hlen
    have h := poll_too_large hd hlen
    exact h
  · intro c len consumed chunk hd hlen
    exact ⟨decode_too_large hd hlen, fun cs => runChunks_too_large cs ⟨c.buf ++ chunk⟩ hd hlen⟩

theorem C8_error_preserves_state_witness :
    StreamPacketizer.poll ⟨[0xFE, 0xFF, 0x03, 0x00]⟩ =
      (.error (.DataTooLarge 65534), ⟨[0xFE, 0xFF, 0x03, 0x00]⟩) ∧
    FlipperCodec.decode ⟨[0xFE, 0xFF, 0x03]⟩ [0x00] =
      (.error dataTooBigError, ⟨[0xFE, 0xFF, 0x03, 0x00]⟩) ∧
    ((Except.error dataTooBigError : Except IoError (Option (List Nat))),
      (⟨[0xFE, 0xFF, 0x03, 0x00, 0x09]⟩ : FlipperCodec)).1 = .error dataTooBigError := by
  have h1 := C8_error_preserves_state.1 ⟨[0xFE, 0xFF, 0x03, 0x00]⟩ 65534 3 rfl (by decide)
  have h2 := C8_error_preserves_state.2 ⟨[0xFE, 0xFF, 0x03]⟩ 65534 3 [0x00] rfl (by decide)
  refine ⟨h1, h2.1, ?_⟩
  refine h2.2 [[0x09]] _ ?_
  have hrun : (⟨[0xFE, 0xFF, 0x03] ++ [0x00]⟩ : FlipperCodec).runChunks [[0x09]] =
      [((Except.error dataTooBigError : Except IoError (Option (List Nat))),
        (⟨[0xFE, 0xFF, 0x03, 0x00, 0x09]⟩ : FlipperCodec))] := rfl
  rw [hrun]
  exact List.mem_singleton.mpr rfl

/-- With a whole sequence of frames buffered, each `decode` call (fed an
empty chunk) returns the next frame in order; one further call returns
"no frame yet". -/
lemma runChunks_buffered :
    ∀ (bs : List (List Nat)), (∀ b ∈ bs, b.length ≤ 1536) →
    ∀ c : FlipperCodec, c.buf = (bs.map frameBytes).flatten →
    (c.runChunks (List.replicate (bs.length + 1) [])).map Prod.fst =
      bs.map (fun b => Except.ok (some b)) ++ [Except.ok none] := by
  intro bs
  induction bs with
  | nil =>
    intro _ c hc
    simp only [List.map_nil, List.flatten_nil] at hc
    have hstep : c.decode [] = (.ok none, ⟨[]⟩) := by
      simp [FlipperCodec.decode, hc, decodeVar, decodeVarAux]
    simp [FlipperCodec.runChunks, hstep, List.replicate]
  | cons b rest ih =>
    intro hb c hc
    have hbody : b.length ≤ 1536 := hb b (List.mem_cons_self b rest)
    have hstep : c.decode [] = (.ok (some b), ⟨(rest.map frameBytes).flatten⟩) := by
      apply decode_frame hbody
      rw [hc, List.append_nil, List.map_cons, List.flatten_cons]
    have hrep : List.replicate ((b :: rest).length + 1) ([] : List Nat) =
        [] :: List.replicate (rest.length + 1) [] := by
      simp [List.replicate_succ]
    rw [hrep, FlipperCodec.runChunks]
    simp only [hstep, List.map_cons]
    rw [ih (fun x hx => hb x (List.mem_cons_of_mem b hx)) ⟨(rest.map frameBytes).flatten⟩ rfl]
    rfl

/-- C4: frames buffered in one codec instance come back one per call, in
arrival order, with no loss, reordering or spurious extra result: feeding
the concatenation of the frames of `bs` as one chunk and then polling with
empty chunks yields exactly the bodies of `bs` in order, then "no frame
yet". For `bs = [a, b]` this is the spec's `encode(a) || encode(b)`
scenario: `a` on the first call, `b` on the second, nothing on the third. -/
theorem C4_fifo_multi_frame (bs : List (List Nat)) (h : ∀ b ∈ bs, b.length ≤ 1536) :
    ((FlipperCodec.mk []).runChunks
        ((bs.map frameBytes).flatten :: List.replicate bs.length [])).map Prod.fst =
      bs.map (fun b => Except.ok (some b)) ++ [Except.ok none] := by
  cases bs with
  | nil =>
    simp [FlipperCodec.runChunks, FlipperCodec.decode, decodeVar, decodeVarAux]
  | cons b rest =>
    have hbody : b.length ≤ 1536 := h b (List.mem_cons_self b rest)
    have hstep : (FlipperCodec.mk []).decode ((frameBytes b :: List.map frameBytes rest).flatten) =
        (.ok (some b), ⟨(rest.map frameBytes).flatten⟩) := by
      apply decode_frame hbody
      rw [List.nil_append, List.flatten_cons]
    rw [FlipperCodec.runChunks]
    simp only [List.map_cons, List.length_cons, hstep]
    rw [runChunks_buffered rest (fun x hx => h x (List.mem_cons_of_mem b hx))
      ⟨(rest.map frameBytes).flatten⟩ rfl]
    rw [List.cons_append]

theorem C4_fifo_multi_frame_witness :
    ((FlipperCodec.mk []).runChunks
        ((([[1], [2, 3]] : List (List Nat)).map frameBytes).flatten ::
          List.replicate 2 [])).map Prod.fst =
      [Except.ok (some [1]), Except.ok (some [2, 3]), Except.ok none] :=
  C4_fifo_multi_frame [[1], [2, 3]] (by decide)

/-- Core induction for incremental delivery: starting from an already
accumulated strict prefix `p` of the frame, each call that still lacks bytes
returns "no frame yet" with the buffer retained, and the call that completes
the frame returns the body and empties the buffer. -/
lemma runChunks_incremental (body : List Nat) (hb : body.length ≤ 1536) :
    ∀ (cs : List (List Nat)) (p : List Nat),
      p ++ cs.flatten = frameBytes body → p ≠ frameBytes body → ∀ i : Nat,
      (p ++ (cs.take (i + 1)).flatten ≠ frameBytes body →
        ((FlipperCodec.mk p).runChunks cs)[i]? =
          some (.ok none, ⟨p ++ (cs.take (i + 1)).flatten⟩)) ∧
      (p ++ (cs.take (i + 1)).flatten = frameBytes body →
        p ++ (cs.take i).flatten ≠ frameBytes body →
        ((FlipperCodec.mk p).runChunks cs)[i]? = some (.ok (some body), ⟨[]⟩)) := by
  intro cs
  induction cs with
  | nil =>
    intro p hflat hne i
    rw [List.flatten_nil, List.append_nil] at hflat
    exact absurd hflat hne
  | cons ch rest ih =>
    intro p hflat hne i
    have hq_flat : (p ++ ch) ++ rest.flatten = frameBytes body := by
      rw [List.append_assoc, ← List.flatten_cons]
      exact hflat
    by_cases hqF : p ++ ch = frameBytes body
    · -- this chunk completes the frame
      have hstep : (FlipperCodec.mk p).decode ch = (.ok (some body), ⟨[]⟩) := by
        apply decode_frame hb
        rw [List.append_nil]
        exact hqF
      have htake : ∀ k, (rest.take k).flatten = ([] : List Nat) := by
        intro k
        have hrest : rest.flatten = [] := by
          have h1 : frameBytes body ++ rest.flatten = frameBytes body ++ [] := by
            rw [List.append_nil, ← hqF, hq_flat, hqF]
          exact List.append_cancel_left h1
        have h2 : (rest.take k).flatten ++ (rest.drop k).flatten = [] := by
          rw [← List.flatten_append, List.take_append_drop, hrest]
        exact (List.append_eq_nil.mp h2).1
      cases i with
      | zero =>
        constructor
        · intro hne1
          exact absurd (by simpa using hqF) hne1
        · intro _ _
          rw [FlipperCodec.runChunks]
          simp only [hstep, List.getElem?_cons_zero]
      | succ i =>
        constructor
        · intro hne1
          refine absurd ?_ hne1
          rw [List.take_succ_cons, List.flatten_cons, htake (i + 1), List.append_nil]
          exact hqF
        · intro _ hne2
          refine absurd ?_ hne2
          rw [List.take_succ_cons, List.flatten_cons, htake i, List.append_nil]
          exact hqF
    · -- still incomplete after this chunk
      have hqpre : p ++ ch <+: frameBytes body := ⟨rest.flatten, hq_flat⟩
      have hstep : (FlipperCodec.mk p).decode ch = (.ok none, ⟨p ++ ch⟩) :=
        decode_incomplete hb hqpre hqF rfl
      cases i with
      | zero =>
        constructor
        · intro _
          rw [FlipperCodec.runChunks]
          simp only [hstep, List.getElem?_cons_zero]
          rw [List.take_succ_cons, List.take_zero, List.flatten_cons, List.flatten_nil,
            List.append_nil]
        · intro heq1 _
          refine absurd ?_ hqF
          rw [← heq1, List.take_succ_cons, List.take_zero, List.flatten_cons,
            List.flatten_nil, List.append_nil]
      | succ i =>
        have hIH := ih (p ++ ch) hq_flat hqF i
        have hEq : ∀ k, p ++ ((ch :: rest).take (k + 1)).flatten =
            (p ++ ch) ++ (rest.take k).flatten := by
          intro k
          rw [List.take_succ_cons, List.flatten_cons, List.append_assoc]
        rw [FlipperCodec.runChunks]
        simp only [hstep, List.getElem?_cons_succ]
        constructor
        · intro hne1
          rw [hEq (i + 1)] at hne1 ⊢
          exact hIH.1 hne1
        · intro heq1 hne2
          rw [hEq (i + 1)] at heq1
          rw [hEq i] at hne2
          exact hIH.2 heq1 hne2

/-- C3: for every body within the limit and every split of its encoded frame
into chunks fed to a fresh `FlipperCodec::decode` in order, each call made
before the final byte has arrived returns "no frame yet" (`Ok(None)`) with
the buffer retained (all bytes so far), and the call that delivers the
final byte returns exactly the body (emptying the buffer). Call `i`
is complete exactly when the bytes fed through call `i` — i.e.
`(cs.take (i+1)).flatten` — form the whole frame. -/
theorem C3_incremental_delivery (body : List Nat) (hb : body.length ≤ 1536)
    (cs : List (List Nat)) (hcs : cs.flatten = frameBytes body) (i : Nat) :
    ((cs.take (i + 1)).flatten ≠ frameBytes body →
      ((FlipperCodec.mk []).runChunks cs)[i]? =
        some (.ok none, ⟨(cs.take (i + 1)).flatten⟩)) ∧
    ((cs.take (i + 1)).flatten = frameBytes body →
      (cs.take i).flatten ≠ frameBytes body →
      ((FlipperCodec.mk []).runChunks cs)[i]? = some (.ok (some body), ⟨[]⟩)) := by
  have hnil : ([] : List Nat) ≠ frameBytes body := by
    intro h
    exact encodeVar_ne_nil body.length (List.append_eq_nil.mp h.symm).1
  have h0 := runChunks_incremental body hb cs []
    (by rw [List.nil_append]; exact hcs) hnil i
  simpa using h0

theorem C3_incremental_delivery_witness :
    (((FlipperCodec.mk []).runChunks [[5, 1, 2], [3, 4, 5]])[0]? =
      some (.ok none, ⟨[5, 1, 2]⟩)) ∧
    (((FlipperCodec.mk []).runChunks [[5, 1, 2], [3, 4, 5]])[1]? =
      some (.ok (some [1, 2, 3, 4, 5]), ⟨[]⟩)) := by
  have hframe : ([[5, 1, 2], [3, 4, 5]] : List (List Nat)).flatten =
      frameBytes [1, 2, 3, 4, 5] := by
    rw [frameBytes]
    rw [show ([1, 2, 3, 4, 5] : List Nat).length = 5 from rfl]
    rw [encodeVar_small (by norm_num)]
    rfl
  have h0 := C3_incremental_delivery [1, 2, 3, 4, 5] (by decide) [[5, 1, 2], [3, 4, 5]]
    hframe 0
  have h1 := C3_incremental_delivery [1, 2, 3, 4, 5] (by decide) [[5, 1, 2], [3, 4, 5]]
    hframe 1
  exact ⟨h0.1 (by rw [← hframe]; decide), h1.2 (by rw [← hframe]; rfl) (by rw [← hframe]; decide)⟩

/-- Function `find_subsequence` from `src/transport/serial.rs`:
`haystack.windows(needle.len()).position(|window| window == needle)`, i.e.
the least start index `i` with `haystack[i .. i + needle.len()] == needle`
(`none` when no window matches; for `haystack = []` and `needle = []`,
where Rust's `windows(0)` is outside the function's contract, the model
returns `some 0`). -/
def find_subsequence : List Nat → List Nat → Option Nat
  | [], needle => if needle = [] then some 0 else none
  | h :: tl, needle =>
    if (h :: tl).length < needle.length then none
    else if (h :: tl).take needle.length = needle then some 0
    else (find_subsequence tl needle).map (· + 1)

/-- One iteration of the buffer update in `SerialTransport::drain_until_pattern`
(`src/transport/serial.rs`): extend `patternbuf` with the bytes just read,
then drain all but the last 32 bytes. -/
def drainWindow (patternbuf readChunk : List Nat) : List Nat :=
  let pb := patternbuf ++ readChunk
  if pb.length > 32 then pb.drop (pb.length - 32) else pb

/-- Method `SerialTransport::drain_until_pattern`, with the byte source modelled as
the list of chunks that successive `port.read` calls deliver: returns the
index of the read on which the pattern is first found in the rolling window,
or `none` when the given reads are exhausted without a match (the source
code would keep looping, awaiting more bytes). -/
def drain_until_pattern (pattern : List Nat) : List Nat → List (List Nat) → Option Nat
  | _, [] => none
  | patternbuf, r :: rest =>
    let pb := drainWindow patternbuf r
    if (find_subsequence pb pattern).isSome then some 0
    else (drain_until_pattern pattern pb rest).map (· + 1)

section DrainLemmas

lemma drainWindow_spec (patternbuf r : List Nat) :
    drainWindow patternbuf r <:+ patternbuf ++ r ∧
    (drainWindow patternbuf r).length = min (patternbuf.length + r.length) 32 := by
  simp only [drainWindow]
  by_cases h : (patternbuf ++ r).length > 32
  · rw [if_pos h]
    refine ⟨List.drop_suffix _ _, ?_⟩
    rw [List.length_drop]
    rw [List.length_append] at h ⊢
    omega
  · rw [if_neg h]
    refine ⟨List.suffix_refl _, ?_⟩
    rw [List.length_append] at h ⊢
    omega

lemma find_subsequence_sound :
    ∀ (hs nd : List Nat) (i : Nat), find_subsequence hs nd = some i → nd <:+: hs := by
  intro hs
  induction hs with
  | nil =>
    intro nd i h
    rw [find_subsequence] at h
    by_cases h1 : nd = []
    · rw [h1]
    · rw [if_neg h1] at h
      exact absurd h (by simp)
  | cons a tl ih =>
    intro nd i h
    rw [find_subsequence] at h
    by_cases h1 : (a :: tl).length < nd.length
    · rw [if_pos h1] at h
      exact absurd h (by simp)
    · rw [if_neg h1] at h
      by_cases h2 : (a :: tl).take nd.length = nd
      · have := List.take_prefix nd.length (a :: tl)
        rw [h2] at this
        exact this.isInfix
      · rw [if_neg h2] at h
        rcases hmap : find_subsequence tl nd with _ | j
        · rw [hmap] at h
          exact absurd h (by simp)
        · exact List.infix_cons (ih nd j hmap)

lemma find_subsequence_complete :
    ∀ (hs nd : List Nat), nd <:+: hs → (find_subsequence hs nd).isSome = true := by
  intro hs
  induction hs with
  | nil =>
    intro nd h
    rw [List.infix_nil] at h
    rw [h, find_subsequence, if_pos rfl]
    rfl
  | cons a tl ih =>
    intro nd h
    rw [find_subsequence]
    rw [if_neg (Nat.not_lt.mpr h.length_le)]
    by_cases h2 : (a :: tl).take nd.length = nd
    · rw [if_pos h2]
      rfl
    · rw [if_neg h2]
      have h3 : nd <:+: tl := by
        rcases List.infix_cons_iff.mp h with hp | ht
        · exact absurd (List.prefix_iff_eq_take.mp hp).symm h2
        · exact ht
      have h4 := ih nd h3
      rcases hmap : find_subsequence tl nd with _ | j
      · rw [hmap] at h4
        simp at h4
      · rfl

/-- Whenever the accumulated bytes end with the pattern, the rolling window
(as maintained by the drain loop) contains the pattern. -/
lemma window_would_find {pattern pb acc : List Nat} (hplen : 0 < pattern.length)
    (hp32 : pattern.length ≤ 32) (hsuf : pb <:+ acc)
    (hlen : pb.length = min acc.length 32) (noise : List Nat)
    (hend : acc = noise ++ pattern) :
    (find_subsequence pb pattern).isSome = true := by
  have hpa : pattern <:+ acc := ⟨noise, hend.symm⟩
  have hacclen : pattern.length ≤ acc.length := hpa.length_le
  have hple : pattern.length ≤ pb.length := by rw [hlen]; omega
  have hppb : pattern <:+ pb := List.suffix_of_suffix_length_le hpa hsuf hple
  exact find_subsequence_complete pb pattern hppb.isInfix

/-- Soundness of the drain loop: if it completes on read `i`, the pattern has
occurred in the bytes delivered through read `i`. -/
lemma drain_sound (pattern : List Nat) :
    ∀ (reads : List (List Nat)) (patternbuf acc : List Nat),
      patternbuf <:+ acc →
      ∀ i : Nat, drain_until_pattern pattern patternbuf reads = some i →
        pattern <:+: acc ++ (reads.take (i + 1)).flatten := by
  intro reads
  induction reads with
  | nil =>
    intro pb acc _ i h
    rw [drain_until_pattern] at h
    exact absurd h (by simp)
  | cons r rest ih =>
    intro pb acc hsuf i h
    rw [drain_until_pattern] at h
    have hsuf2 : drainWindow pb r <:+ acc ++ r := by
      obtain ⟨s, hs⟩ := hsuf
      exact (drainWindow_spec pb r).1.trans ⟨s, by rw [← List.append_assoc, hs]⟩
    by_cases hf : (find_subsequence (drainWindow pb r) pattern).isSome
    · rw [if_pos hf] at h
      have hi : i = 0 := by
        injection h with h'
        omega
      subst hi
      rcases hfs : find_subsequence (drainWindow pb r) pattern with _ | j
      · rw [hfs] at hf
        simp at hf
      · have hinf := find_subsequence_sound _ _ _ hfs
        have hinf2 : pattern <:+: acc ++ r := hinf.trans hsuf2.isInfix
        rw [List.take_succ_cons, List.take_zero, List.flatten_cons, List.flatten_nil,
          List.append_nil]
        exact hinf2
    · rw [if_neg hf] at h
      rcases hmap : drain_until_pattern pattern (drainWindow pb r) rest with _ | j
      · rw [hmap] at h
        exact absurd h (by simp)
      · rw [hmap] at h
        have hi : i = j + 1 := by
          simp at h
          omega
        subst hi
        have hrec := ih (drainWindow pb r) (acc ++ r) hsuf2 j hmap
        rw [List.take_succ_cons, List.flatten_cons, ← List.append_assoc]
        exact hrec

/-- Completeness of the drain loop: once the delivered bytes end with the
pattern, the loop has completed on some earlier or equal read. -/
lemma drain_complete (pattern : List Nat) (hplen : 0 < pattern.length)
    (hp32 : pattern.length ≤ 32) :
    ∀ (reads : List (List Nat)) (patternbuf acc : List Nat),
      patternbuf <:+ acc → patternbuf.length = min acc.length 32 →
      (find_subsequence patternbuf pattern).isSome = false →
      ∀ (k : Nat) (noise : List Nat), k ≤ reads.length →
        acc ++ (reads.take k).flatten = noise ++ pattern →
        ∃ i < k, drain_until_pattern pattern patternbuf reads = some i := by
  intro reads
  induction reads with
  | nil =>
    intro pb acc hsuf hlen hnot k noise hk hend
    exfalso
    have hk0 : k = 0 := by simp at hk; omega
    subst hk0
    rw [List.take_zero, List.flatten_nil, List.append_nil] at hend
    have := window_would_find hplen hp32 hsuf hlen noise hend
    rw [hnot] at this
    exact absurd this (by simp)
  | cons r rest ih =>
    intro pb acc hsuf hlen hnot k noise hk hend
    cases k with
    | zero =>
      exfalso
      rw [List.take_zero, List.flatten_nil, List.append_nil] at hend
      have := window_would_find hplen hp32 hsuf hlen noise hend
      rw [hnot] at this
      exact absurd this (by simp)
    | succ k =>
      have hwin := drainWindow_spec pb r
      have hsuf2 : drainWindow pb r <:+ acc ++ r := by
        obtain ⟨s, hs⟩ := hsuf
        exact hwin.1.trans ⟨s, by rw [← List.append_assoc, hs]⟩
      have hlen2 : (drainWindow pb r).length = min (acc ++ r).length 32 := by
        rw [List.length_append, hwin.2, hlen]
        omega
      by_cases hf : (find_subsequence (drainWindow pb r) pattern).isSome
      · exact ⟨0, by omega, by rw [drain_until_pattern, if_pos hf]⟩
      · have hend' : (acc ++ r) ++ (rest.take k).flatten = noise ++ pattern := by
          rw [List.take_succ_cons, List.flatten_cons, ← List.append_assoc] at hend
          exact hend
        have hnot2 : (find_subsequence (drainWindow pb r) pattern).isSome = false := by
          rcases hb : (find_subsequence (drainWindow pb r) pattern).isSome with _ | _
          · rfl
          · exact absurd hb hf
        obtain ⟨i, hik, hdrain⟩ := ih (drainWindow pb r) (acc ++ r) hsuf2 hlen2 hnot2 k
          noise (by simpa using hk) hend'
        refine ⟨i + 1, by omega, ?_⟩
        rw [drain_until_pattern, if_neg hf, hdrain]
        rfl

end DrainLemmas

/-- C5: the serial init drain loop accumulates reads into a rolling window
bounded to the last 32 bytes (conjunct 3), never completes before the prompt
pattern `0x0A 0x3E 0x3A 0x20` has appeared in the delivered bytes
(conjunct 1), and completes no later than the read that finishes delivering
`noise ++ pattern`, however the noise is chunked across reads (conjunct 2). -/
theorem C5_drain_until_prompt (reads : List (List Nat)) :
    (∀ i : Nat, drain_until_pattern PROMPT_PATTERN [] reads = some i →
        PROMPT_PATTERN <:+: (reads.take (i + 1)).flatten) ∧
    (∀ (k : Nat) (noise : List Nat),
        (reads.take k).flatten = noise ++ PROMPT_PATTERN →
        ∃ i < k, drain_until_pattern PROMPT_PATTERN [] reads = some i) ∧
    (∀ patternbuf r : List Nat,
        drainWindow patternbuf r <:+ patternbuf ++ r ∧
        (drainWindow patternbuf r).length = min (patternbuf.length + r.length) 32) := by
  refine ⟨?_, ?_, drainWindow_spec⟩
  · intro i h
    have hs := drain_sound PROMPT_PATTERN reads [] [] (List.suffix_refl []) i h
    simpa using hs
  · intro k noise hend
    have hk' : (reads.take (min k reads.length)).flatten = noise ++ PROMPT_PATTERN := by
      rcases le_or_lt k reads.length with h1 | h1
      · rw [min_eq_left h1]
        exact hend
      · rw [min_eq_right (by omega)]
        rw [List.take_of_length_le (by omega)] at hend
        rw [List.take_length]
        exact hend
    obtain ⟨i, hik, hdrain⟩ := drain_complete PROMPT_PATTERN (by decide) (by decide)
      reads [] [] (List.suffix_refl []) (by simp) rfl (min k reads.length) noise
      (Nat.min_le_right k reads.length) (by simpa using hk')
    exact ⟨i, by omega, hdrain⟩

theorem C5_drain_until_prompt_witness :
    PROMPT_PATTERN <:+: ([[1, 2], [10, 62], [58, 32]] : List (List Nat)).flatten ∧
    (∃ i < 3, drain_until_pattern PROMPT_PATTERN [] [[1, 2], [10, 62], [58, 32]] = some i) ∧
    drainWindow [1] [2] <:+ [1] ++ [2] ∧
    (drainWindow [1] [2]).length = min (([1] : List Nat).length + ([2] : List Nat).length) 32 := by
  have hc := C5_drain_until_prompt [[1, 2], [10, 62], [58, 32]]
  have h1 := hc.1 2 (by decide)
  have h2 := hc.2.1 3 [1, 2] (by decide)
  have h3 := hc.2.2 [1] [2]
  exact ⟨by simpa using h1, h2, h3.1, h3.2⟩

/-- Struct `FlipperScanner` from `src/transport/ble.rs`: the discovered adapter
list (adapters modelled as opaque handles) and the selected index. -/
structure FlipperScanner where
  bt_adapters : List Nat
  adapter_idx : Nat
deriving DecidableEq, Repr

/-- Constructor `FlipperScanner::new` from `src/transport/ble.rs`, given the adapter list
the provider reports (the provider's own failure paths, which are wrapped
into `BTFailure` / `BTAdapterError` before this point, are not modelled):
an empty list yields `Err(BTFailure("Adapter does not exist."))`, otherwise
the scanner starts with all adapters and index 0. -/
def FlipperScanner.new (adapters : List Nat) : Except FlipperError FlipperScanner :=
  if adapters.isEmpty then .error (.BTFailure "Adapter does not exist.")
  else .ok ⟨adapters, 0⟩

/-- Method `FlipperScanner::set_adapter`: record the index if it is within the
adapter list, otherwise fail with `OutOfBounds` leaving the scanner as is. -/
def FlipperScanner.set_adapter (s : FlipperScanner) (idx : Nat) :
    Except FlipperError Unit × FlipperScanner :=
  if s.bt_adapters.length > idx then (.ok (), { s with adapter_idx := idx })
  else (.error .OutOfBounds, s)

/-- Whether a `FlipperError` is the `BTAdapterError` variant (the taxonomy's
`AdapterUnavailable`). -/
def FlipperError.isBTAdapterError : FlipperError → Bool
  | .BTAdapterError _ => true
  | _ => false

/-- C6 counterexample: with an empty adapter list, `FlipperScanner::new`
fails with `BTFailure("Adapter does not exist.")` — the generic-failure
variant — and not with `BTAdapterError`, the variant the claim (via the
spec's `AdapterUnavailable`) prescribes. -/
theorem C6_empty_adapters_cex :
    FlipperScanner.new [] = .error (.BTFailure "Adapter does not exist.") ∧
    (FlipperError.BTFailure "Adapter does not exist.").isBTAdapterError = false :=
  ⟨rfl, rfl⟩

/-- C6 (amended): constructing the scanner on an empty adapter list fails
with `BTFailure("Adapter does not exist.")` (not `BTAdapterError`), and on a
non-empty list succeeds recording all enumerated adapters with index 0. -/
theorem C6_scanner_new (adapters : List Nat) :
    (adapters = [] →
      FlipperScanner.new adapters = .error (.BTFailure "Adapter does not exist.")) ∧
    (adapters ≠ [] → FlipperScanner.new adapters = .ok ⟨adapters, 0⟩) := by
  constructor
  · intro h
    rw [h]
    rfl
  · intro h
    rw [FlipperScanner.new, if_neg (by simpa using h)]

theorem C6_scanner_new_witness :
    FlipperScanner.new [] = .error (.BTFailure "Adapter does not exist.") ∧
    FlipperScanner.new [7] = .ok ⟨[7], 0⟩ :=
  ⟨(C6_scanner_new []).1 rfl, (C6_scanner_new [7]).2 (by simp)⟩

/-- C9: `set_adapter(idx)` succeeds and records the index for every index
strictly below the adapter count, and fails with `OutOfBounds`, leaving the
previously selected index (indeed the whole scanner) unchanged, for every
index at or beyond the count. -/
theorem C9_set_adapter (s : FlipperScanner) (idx : Nat) :
    (idx < s.bt_adapters.length →
      s.set_adapter idx = (.ok (), ⟨s.bt_adapters, idx⟩)) ∧
    (s.bt_adapters.length ≤ idx →
      s.set_adapter idx = (.error .OutOfBounds, s)) := by
  constructor
  · intro h
    rw [FlipperScanner.set_adapter, if_pos h]
  · intro h
    rw [FlipperScanner.set_adapter, if_neg (by omega)]

theorem C9_set_adapter_witness :
    FlipperScanner.set_adapter ⟨[4, 5], 0⟩ 1 = (.ok (), ⟨[4, 5], 1⟩) ∧
    FlipperScanner.set_adapter ⟨[4, 5], 1⟩ 2 = (.error .OutOfBounds, ⟨[4, 5], 1⟩) :=
  ⟨(C9_set_adapter ⟨[4, 5], 0⟩ 1).1 (by decide),
    (C9_set_adapter ⟨[4, 5], 1⟩ 2).2 (by decide)⟩

end Flipperbridge
